/-
Verification of the terminal-typewriter paginated document core
(src/src/main.js) against its natural-language specification.

The JavaScript source is shallowly embedded: JS strings are modelled as
`List Char` (or Lean `String` where the code only concatenates), the
width-measurement side of a 2D canvas context (`ctx.measureText(s).width`)
is an explicit function argument, DOM block elements (`.line` /
`.image-line` divs) become an inductive `Block` type carrying the data the
code reads from them (dataset.font, textContent, offsetHeight, natural
image dimensions, filter toggle), and the mutations performed by the
overflow controller become pure state transformers.
-/
import Mathlib

namespace Typewriter

/-! ## Text layout engine: `wrapText` (main.js lines 1126-1173)

`wrapText(ctx, text, maxWidth)` splits `text` on single spaces
(`text.split(' ')`, which keeps empty fragments for consecutive spaces),
greedily accumulates words into lines, and breaks words that are wider
than `maxWidth` character by character.  The only use of `ctx` is
`ctx.measureText(s).width`, so the context is embedded as the measurement
function itself.  Measured widths live in an arbitrary linear order `α`
(the code only ever compares a measured width against `maxWidth`). -/

/-- JS `text.split(' ')` on the character list: split on every single
space, keeping empty fragments (e.g. `"a  b"` gives `["a", "", "b"]`). -/
def splitSpaces : List Char → List (List Char)
  | [] => [[]]
  | c :: cs =>
    if c = ' ' then [] :: splitSpaces cs
    else
      match splitSpaces cs with
      | [] => [[c]]
      | w :: ws => (c :: w) :: ws

variable {α : Type} [LinearOrder α]

/-- The character-by-character loop of `wrapText` for a word wider than
`maxWidth` (main.js lines 1143-1152): characters are appended to `chunk`;
when `chunk + word[i]` would exceed `maxWidth` and `chunk` is non-empty,
`chunk` is flushed and a new chunk starts with that character.  Returns
the flushed chunks and the final (unflushed) chunk. -/
def breakChunks (measure : List Char → α) (maxWidth : α) :
    List Char → List Char → List (List Char) × List Char
  | chunk, [] => ([], chunk)
  | chunk, c :: cs =>
    let testChunk := chunk ++ [c]
    if maxWidth < measure testChunk ∧ chunk ≠ [] then
      let r := breakChunks measure maxWidth [c] cs
      (chunk :: r.1, r.2)
    else
      breakChunks measure maxWidth testChunk cs

/-- One iteration of the `words.forEach` loop of `wrapText`
(main.js lines 1133-1166).  State is `(lines, currentLine)`. -/
def stepWord (measure : List Char → α) (maxWidth : α)
    (st : List (List Char) × List Char) (word : List Char) :
    List (List Char) × List Char :=
  let lines := st.1
  let currentLine := st.2
  if maxWidth < measure word then
    -- long-word branch: flush currentLine if non-empty, then break the word
    let lines1 := if currentLine ≠ [] then lines ++ [currentLine] else lines
    let r := breakChunks measure maxWidth [] word
    (lines1 ++ r.1, r.2)
  else
    let testLine := if currentLine ≠ [] then currentLine ++ ' ' :: word else word
    if maxWidth < measure testLine ∧ currentLine ≠ [] then
      (lines ++ [currentLine], word)
    else
      (lines, testLine)

/-- The function `wrapText(ctx, text, maxWidth)` (main.js lines 1126-1173).
`if (!text) return []`; otherwise run the word loop and flush the final
`currentLine` if non-empty. -/
def wrapText (measure : List Char → α) (text : List Char) (maxWidth : α) :
    List (List Char) :=
  if text = [] then []
  else
    let r := (splitSpaces text).foldl (stepWord measure maxWidth) ([], [])
    if r.2 ≠ [] then r.1 ++ [r.2] else r.1

/-! ### Wrap invariants -/

/-- Invariant carried by every flushed line and by the candidate line:
its measured width fits, or it is a single character. -/
def GoodLine (measure : List Char → α) (maxWidth : α) (l : List Char) : Prop :=
  measure l ≤ maxWidth ∨ l.length = 1

theorem breakChunks_good (measure : List Char → α) (maxWidth : α) (cs : List Char) :
    ∀ chunk, (chunk = [] ∨ GoodLine measure maxWidth chunk) →
      (∀ l ∈ (breakChunks measure maxWidth chunk cs).1, GoodLine measure maxWidth l) ∧
      ((breakChunks measure maxWidth chunk cs).2 = [] ∨
        GoodLine measure maxWidth (breakChunks measure maxWidth chunk cs).2) := by
  induction cs with
  | nil =>
    intro chunk h
    exact ⟨fun l hl => absurd hl (by simp [breakChunks]), by simpa [breakChunks] using h⟩
  | cons c cs ih =>
    intro chunk h
    by_cases hc : maxWidth < measure (chunk ++ [c]) ∧ chunk ≠ []
    · have hgood : GoodLine measure maxWidth chunk := by
        rcases h with h | h
        · exact absurd h hc.2
        · exact h
      have hrec := ih [c] (Or.inr (Or.inr rfl))
      rw [breakChunks, if_pos hc]
      refine ⟨fun l hl => ?_, hrec.2⟩
      rcases List.mem_cons.mp hl with rfl | hl
      · exact hgood
      · exact hrec.1 l hl
    · have hnew : (chunk ++ [c]) = [] ∨ GoodLine measure maxWidth (chunk ++ [c]) := by
        rw [not_and_or] at hc
        rcases hc with hc | hc
        · exact Or.inr (Or.inl (le_of_not_lt hc))
        · have : chunk = [] := by simpa using hc
          subst this
          exact Or.inr (Or.inr rfl)
      rw [breakChunks, if_neg (by rw [not_and_or] at hc ⊢; exact hc)]
      exact ih (chunk ++ [c]) hnew

theorem stepWord_good (measure : List Char → α) (maxWidth : α)
    (st : List (List Char) × List Char) (word : List Char)
    (h : (∀ l ∈ st.1, GoodLine measure maxWidth l) ∧
      (st.2 = [] ∨ GoodLine measure maxWidth st.2)) :
    (∀ l ∈ (stepWord measure maxWidth st word).1, GoodLine measure maxWidth l) ∧
    ((stepWord measure maxWidth st word).2 = [] ∨
      GoodLine measure maxWidth (stepWord measure maxWidth st word).2) := by
  obtain ⟨lines, currentLine⟩ := st
  obtain ⟨hlines, hcur⟩ := h
  by_cases hw : maxWidth < measure word
  · have hbk := breakChunks_good measure maxWidth word [] (Or.inl rfl)
    rw [stepWord, if_pos hw]
    dsimp only
    refine ⟨fun l hl => ?_, hbk.2⟩
    rcases List.mem_append.mp hl with hl | hl
    · by_cases hne : currentLine ≠ []
      · rw [if_pos hne] at hl
        rcases List.mem_append.mp hl with hl | hl
        · exact hlines l hl
        · have : l = currentLine := by simpa using hl
          subst this
          rcases hcur with h | h
          · exact absurd h hne
          · exact h
      · rw [if_neg hne] at hl
        exact hlines l hl
    · exact hbk.1 l hl
  · rw [stepWord, if_neg hw]
    dsimp only
    by_cases hc : maxWidth <
        measure (if currentLine ≠ [] then currentLine ++ ' ' :: word else word) ∧
        currentLine ≠ []
    · rw [if_pos hc]
      refine ⟨fun l hl => ?_, Or.inr (Or.inl (le_of_not_lt hw))⟩
      rcases List.mem_append.mp hl with hl | hl
      · exact hlines l hl
      · have : l = currentLine := by simpa using hl
        subst this
        rcases hcur with h | h
        · exact absurd h hc.2
        · exact h
    · rw [if_neg hc]
      refine ⟨hlines, ?_⟩
      by_cases hne : currentLine ≠ []
      · rw [not_and_or] at hc
        rcases hc with hc | hc
        · rw [if_pos hne]
          exact Or.inr (Or.inl (le_of_not_lt (by simpa [if_pos hne] using hc)))
        · exact absurd hne hc
      · rw [if_neg hne]
        exact Or.inr (Or.inl (le_of_not_lt hw))

theorem foldl_stepWord_good (measure : List Char → α) (maxWidth : α)
    (words : List (List Char)) :
    ∀ st, (∀ l ∈ st.1, GoodLine measure maxWidth l) ∧
        (st.2 = [] ∨ GoodLine measure maxWidth st.2) →
      (∀ l ∈ (words.foldl (stepWord measure maxWidth) st).1, GoodLine measure maxWidth l) ∧
      ((words.foldl (stepWord measure maxWidth) st).2 = [] ∨
        GoodLine measure maxWidth (words.foldl (stepWord measure maxWidth) st).2) := by
  induction words with
  | nil => intro st h; simpa using h
  | cons w ws ih =>
    intro st h
    exact ih (stepWord measure maxWidth st w) (stepWord_good measure maxWidth st w h)

/-- Every line produced by `wrapText` fits in `maxWidth` or is a single
character.  No assumption on the measurement function is needed: the code
only ever keeps a string it has measured (or a single character). -/
theorem wrapText_good (measure : List Char → α) (text : List Char) (maxWidth : α) :
    ∀ l ∈ wrapText measure text maxWidth, GoodLine measure maxWidth l := by
  intro l hl
  rw [wrapText] at hl
  by_cases ht : text = []
  · simp [ht] at hl
  · rw [if_neg ht] at hl
    have hfold := foldl_stepWord_good measure maxWidth (splitSpaces text) ([], [])
      ⟨by simp, Or.inl rfl⟩
    set r := (splitSpaces text).foldl (stepWord measure maxWidth) ([], []) with hr
    by_cases h2 : r.2 ≠ []
    · rw [if_pos h2] at hl
      rcases List.mem_append.mp hl with hl | hl
      · exact hfold.1 l hl
      · have : l = r.2 := by simpa using hl
        subst this
        rcases hfold.2 with h | h
        · exact absurd h h2
        · exact h
    · rw [if_neg h2] at hl
      exact hfold.1 l hl

/-! ### Wrap output lines are never empty -/

theorem breakChunks_flushed_ne (measure : List Char → α) (maxWidth : α) (cs : List Char) :
    ∀ chunk, ∀ l ∈ (breakChunks measure maxWidth chunk cs).1, l ≠ [] := by
  induction cs with
  | nil => intro chunk l hl; simp [breakChunks] at hl
  | cons c cs ih =>
    intro chunk l hl
    by_cases hc : maxWidth < measure (chunk ++ [c]) ∧ chunk ≠ []
    · rw [breakChunks, if_pos hc] at hl
      rcases List.mem_cons.mp hl with rfl | hl
      · exact hc.2
      · exact ih [c] l hl
    · rw [breakChunks, if_neg hc] at hl
      exact ih (chunk ++ [c]) l hl

theorem stepWord_lines_ne (measure : List Char → α) (maxWidth : α)
    (st : List (List Char) × List Char) (word : List Char)
    (h : ∀ l ∈ st.1, l ≠ []) :
    ∀ l ∈ (stepWord measure maxWidth st word).1, l ≠ [] := by
  obtain ⟨lines, currentLine⟩ := st
  intro l hl
  by_cases hw : maxWidth < measure word
  · rw [stepWord, if_pos hw] at hl
    dsimp only at hl
    rcases List.mem_append.mp hl with hl | hl
    · by_cases hne : currentLine ≠ []
      · rw [if_pos hne] at hl
        rcases List.mem_append.mp hl with hl | hl
        · exact h l hl
        · have : l = currentLine := by simpa using hl
          subst this; exact hne
      · rw [if_neg hne] at hl
        exact h l hl
    · exact breakChunks_flushed_ne measure maxWidth word [] l hl
  · rw [stepWord, if_neg hw] at hl
    dsimp only at hl
    by_cases hc : maxWidth <
        measure (if currentLine ≠ [] then currentLine ++ ' ' :: word else word) ∧
        currentLine ≠ []
    · rw [if_pos hc] at hl
      rcases List.mem_append.mp hl with hl | hl
      · exact h l hl
      · have : l = currentLine := by simpa using hl
        subst this; exact hc.2
    · rw [if_neg hc] at hl
      exact h l hl

theorem foldl_stepWord_lines_ne (measure : List Char → α) (maxWidth : α)
    (words : List (List Char)) :
    ∀ st, (∀ l ∈ st.1, l ≠ []) →
      ∀ l ∈ (words.foldl (stepWord measure maxWidth) st).1, l ≠ [] := by
  induction words with
  | nil => intro st h; simpa using h
  | cons w ws ih =>
    intro st h
    exact ih (stepWord measure maxWidth st w) (stepWord_lines_ne measure maxWidth st w h)

/-- The state `(lines, [])` absorbs an empty word: `stepWord` leaves it
unchanged whatever the measurement says. -/
theorem stepWord_empty_word (measure : List Char → α) (maxWidth : α)
    (lines : List (List Char)) :
    stepWord measure maxWidth (lines, []) [] = (lines, []) := by
  by_cases hw : maxWidth < measure []
  · rw [stepWord, if_pos hw]
    simp [breakChunks]
  · rw [stepWord, if_neg hw]
    simp

theorem splitSpaces_all_space (cs : List Char) (h : ∀ c ∈ cs, c = ' ') :
    ∀ w ∈ splitSpaces cs, w = [] := by
  induction cs with
  | nil => intro w hw; simpa [splitSpaces] using hw
  | cons c cs ih =>
    intro w hw
    have hc : c = ' ' := h c (by simp)
    rw [splitSpaces, if_pos hc] at hw
    rcases List.mem_cons.mp hw with rfl | hw
    · rfl
    · exact ih (fun d hd => h d (by simp [hd])) w hw

theorem foldl_stepWord_all_empty (measure : List Char → α) (maxWidth : α)
    (words : List (List Char)) :
    ∀ lines, (∀ w ∈ words, w = []) →
      words.foldl (stepWord measure maxWidth) (lines, []) = (lines, []) := by
  induction words with
  | nil => intro lines _; rfl
  | cons w ws ih =>
    intro lines h
    have hw : w = [] := h w (by simp)
    subst hw
    rw [List.foldl_cons, stepWord_empty_word]
    exact ih lines (fun v hv => h v (by simp [hv]))

/-! ### Measurement congruence: `wrapText` only uses the measurement
function through comparisons with `maxWidth`. -/

variable {β : Type} [LinearOrder β]

theorem breakChunks_congr (m1 : List Char → α) (w1 : α) (m2 : List Char → β) (w2 : β)
    (h : ∀ s, w1 < m1 s ↔ w2 < m2 s) (cs : List Char) :
    ∀ chunk, breakChunks m1 w1 chunk cs = breakChunks m2 w2 chunk cs := by
  induction cs with
  | nil => intro chunk; rfl
  | cons c cs ih =>
    intro chunk
    by_cases hc : w1 < m1 (chunk ++ [c]) ∧ chunk ≠ []
    · rw [breakChunks, if_pos hc, breakChunks,
        if_pos (And.intro ((h (chunk ++ [c])).mp hc.1) hc.2), ih]
    · rw [breakChunks, if_neg hc, breakChunks, if_neg (fun hc2 =>
        hc (And.intro ((h (chunk ++ [c])).mpr hc2.1) hc2.2)), ih]

theorem stepWord_congr (m1 : List Char → α) (w1 : α) (m2 : List Char → β) (w2 : β)
    (h : ∀ s, w1 < m1 s ↔ w2 < m2 s) (st : List (List Char) × List Char)
    (word : List Char) :
    stepWord m1 w1 st word = stepWord m2 w2 st word := by
  obtain ⟨lines, currentLine⟩ := st
  by_cases hw : w1 < m1 word
  · rw [stepWord, if_pos hw, stepWord, if_pos ((h word).mp hw),
      breakChunks_congr m1 w1 m2 w2 h]
  · rw [stepWord, if_neg hw, stepWord, if_neg (fun hw2 => hw ((h word).mpr hw2))]
    dsimp only
    by_cases hc : w1 < m1 (if currentLine ≠ [] then currentLine ++ ' ' :: word else word) ∧
        currentLine ≠ []
    · have hc' : w2 < m2 (if currentLine ≠ [] then currentLine ++ ' ' :: word else word) ∧
          currentLine ≠ [] := ⟨(h _).mp hc.1, hc.2⟩
      rw [if_pos hc, if_pos hc']
    · have hc' : ¬(w2 < m2 (if currentLine ≠ [] then currentLine ++ ' ' :: word else word) ∧
          currentLine ≠ []) := fun hc2 => hc ⟨(h _).mpr hc2.1, hc2.2⟩
      rw [if_neg hc, if_neg hc']

/-- The function `wrapText` depends on the measurement function only through the
outcomes of its comparisons against `maxWidth`. -/
theorem wrapText_congr (m1 : List Char → α) (w1 : α) (m2 : List Char → β) (w2 : β)
    (h : ∀ s, w1 < m1 s ↔ w2 < m2 s) (text : List Char) :
    wrapText m1 text w1 = wrapText m2 text w2 := by
  rw [wrapText, wrapText]
  by_cases ht : text = []
  · simp [ht]
  · rw [if_neg ht, if_neg ht,
      List.foldl_ext (stepWord m1 w1) (stepWord m2 w2) ([], [])
        (fun st word _ => stepWord_congr m1 w1 m2 w2 h st word)]

/-! ### Claim theorems about the text layout engine -/

/-- A width measurement that never shrinks when a character is appended. -/
def MonotoneMeasure (measure : List Char → ℕ) : Prop :=
  ∀ s c, measure s ≤ measure (s ++ [c])

/-- A width measurement under which joining two strings with a space adds
the widths of the pieces and of the space. -/
def SpaceAdditiveMeasure (measure : List Char → ℕ) : Prop :=
  ∀ a b, measure (a ++ ' ' :: b) = measure a + measure [' '] + measure b

/-- C2: for every input text, every (monotone, space-additive) width
measurement and every `maxWidth`, each line produced by `wrapText` has
measured width at most `maxWidth`, except for a line consisting of a
single character whose measured width alone exceeds `maxWidth`.
(The proof in fact never needs the two measurement hypotheses.) -/
theorem wrap_width_bounded (measure : List Char → ℕ) (maxWidth : ℕ)
    (hmono : MonotoneMeasure measure) (hadd : SpaceAdditiveMeasure measure)
    (text : List Char) :
    ∀ l ∈ wrapText measure text maxWidth,
      measure l ≤ maxWidth ∨ ∃ c, l = [c] ∧ maxWidth < measure [c] := by
  intro l hl
  rcases wrapText_good measure text maxWidth l hl with h | h
  · exact Or.inl h
  · rcases List.length_eq_one.mp h with ⟨c, rfl⟩
    by_cases hle : measure [c] ≤ maxWidth
    · exact Or.inl hle
    · exact Or.inr ⟨c, rfl, lt_of_not_le hle⟩

/-- Witness for C2 at `measure = List.length`, `maxWidth = 5`,
text `"hello world"`, line `"hello"`. -/
theorem wrap_width_bounded_witness :
    MonotoneMeasure List.length ∧ SpaceAdditiveMeasure List.length ∧
      "hello".data ∈ wrapText List.length "hello world".data 5 ∧
      (List.length "hello".data ≤ 5 ∨
        ∃ c, "hello".data = [c] ∧ 5 < List.length [c]) := by
  have hmono : MonotoneMeasure List.length := fun s c => by simp
  have hadd : SpaceAdditiveMeasure List.length := fun a b => by simp; omega
  have hmem : "hello".data ∈ wrapText List.length "hello world".data 5 := by decide
  exact ⟨hmono, hadd, hmem,
    wrap_width_bounded List.length 5 hmono hadd "hello world".data "hello".data hmem⟩

/-- C9: with a measurement of `charWidth` per character and
`maxWidth = 10 * charWidth`, wrapping the single word
"Supercalifragilisticexpialidocious" yields more than one chunk, every
chunk has at most 10 characters, and the chunks concatenate back to the
original word. -/
theorem wrap_long_word_split (charWidth : ℕ) (hpos : 0 < charWidth) :
    1 < (wrapText (fun s => charWidth * s.length)
        "Supercalifragilisticexpialidocious".data (10 * charWidth)).length ∧
    (∀ l ∈ wrapText (fun s => charWidth * s.length)
        "Supercalifragilisticexpialidocious".data (10 * charWidth), l.length ≤ 10) ∧
    (wrapText (fun s => charWidth * s.length)
        "Supercalifragilisticexpialidocious".data (10 * charWidth)).flatten =
      "Supercalifragilisticexpialidocious".data := by
  have hcongr := wrapText_congr (fun s => charWidth * s.length) (10 * charWidth)
    (fun s : List Char => s.length) 10
    (fun s => by rw [mul_comm 10 charWidth]; exact mul_lt_mul_left hpos)
    "Supercalifragilisticexpialidocious".data
  rw [hcongr]
  decide

/-- Witness for C9 at `charWidth = 2`. -/
theorem wrap_long_word_split_witness :
    0 < 2 ∧
    (1 < (wrapText (fun s => 2 * s.length)
        "Supercalifragilisticexpialidocious".data (10 * 2)).length ∧
    (∀ l ∈ wrapText (fun s => 2 * s.length)
        "Supercalifragilisticexpialidocious".data (10 * 2), l.length ≤ 10) ∧
    (wrapText (fun s => 2 * s.length)
        "Supercalifragilisticexpialidocious".data (10 * 2)).flatten =
      "Supercalifragilisticexpialidocious".data) :=
  ⟨by decide, wrap_long_word_split 2 (by decide)⟩

/-- C10: every string returned by `wrapText` is non-empty, and an input
consisting only of spaces yields zero lines. -/
theorem wrap_lines_nonempty (measure : List Char → α) (text : List Char) (maxWidth : α) :
    (∀ l ∈ wrapText measure text maxWidth, l ≠ []) ∧
    ((∀ c ∈ text, c = ' ') → wrapText measure text maxWidth = []) := by
  constructor
  · intro l hl
    rw [wrapText] at hl
    by_cases ht : text = []
    · simp [ht] at hl
    · rw [if_neg ht] at hl
      have hfold := foldl_stepWord_lines_ne measure maxWidth (splitSpaces text)
        ([], []) (by simp)
      set r := (splitSpaces text).foldl (stepWord measure maxWidth) ([], []) with hr
      by_cases h2 : r.2 ≠ []
      · rw [if_pos h2] at hl
        rcases List.mem_append.mp hl with hl | hl
        · exact hfold l hl
        · have : l = r.2 := by simpa using hl
          subst this; exact h2
      · rw [if_neg h2] at hl
        exact hfold l hl
  · intro hsp
    rw [wrapText]
    by_cases ht : text = []
    · simp [ht]
    · rw [if_neg ht,
        foldl_stepWord_all_empty measure maxWidth (splitSpaces text) []
          (splitSpaces_all_space text hsp)]
      simp

/-- Witness for C10: a three-space input produces zero wrapped lines. -/
theorem wrap_lines_nonempty_witness :
    (∀ c ∈ "   ".data, c = ' ') ∧
      wrapText (fun s : List Char => s.length) "   ".data 7 = [] :=
  ⟨by decide,
    (wrap_lines_nonempty (fun s : List Char => s.length) "   ".data 7).2 (by decide)⟩

/-! ## Document model and overflow controller (main.js lines 242-541)

A page editor's children are `.line` divs (dataset.font, textContent,
offsetHeight) and `.image-line` divs (an `img` with natural dimensions, an
optional newspaper-filter class, offsetHeight).  `offsetHeight` is the
externally measured rendered height and is carried as block data.  -/

/-- A block of a page: a text line or an image line. -/
inductive Block : Type
  | line (font : String) (content : String) (height : ℕ)
  | image (naturalW naturalH : ℚ) (filt : Bool) (height : ℕ)
  deriving DecidableEq, Repr

/-- The `offsetHeight` of a block element. -/
def Block.height : Block → ℕ
  | .line _ _ h => h
  | .image _ _ _ h => h

/-- JS whitespace for `trim` / `trimEnd` (the characters that occur in
this code base: space, tab, newline, carriage return). -/
def isJsSpace (c : Char) : Bool :=
  c = ' ' || c = '\t' || c = '\n' || c = '\r'

/-- Whether `s.trim()` is empty: every character is whitespace. -/
def trimIsEmpty (s : String) : Bool :=
  s.data.all isJsSpace

/-- The constant `MAX_PAGE_HEIGHT` (main.js line 243). -/
def MAX_PAGE_HEIGHT : ℕ := 1200

/-- The measured content height of a page: the sum of its children's
`offsetHeight` plus the fixed 40px top + 40px bottom padding
(main.js lines 387-396). -/
def contentHeight (p : List Block) : ℕ :=
  (p.map Block.height).sum + 80

/-- The lookup `nextEditor.querySelector('.line')` followed by the conditional
`remove()` (main.js lines 418-423): find the first `.line` element (image
lines are skipped by the selector); if its text content is empty or
whitespace-only, remove it; otherwise change nothing. -/
def removeFirstEmptyLine : List Block → List Block
  | [] => []
  | .line f c h :: rest =>
    if trimIsEmpty c then rest else .line f c h :: rest
  | .image w hN filt h :: rest => .image w hN filt h :: removeFirstEmptyLine rest

/-- The document-level state the overflow controller reads and writes:
the page list, `currentPageIndex`, and the caret, modelled as
`some (pageIndex, blockIndex)` when a selection exists.  The code only
asks whether the caret sits inside the last block of the current page
(`cursorInLastElement`), and after a followed migration the caret is
placed in the migrated block, which is then block 0 of the next page. -/
structure DocState : Type where
  pages : List (List Block)
  current : ℕ
  cursor : Option (ℕ × ℕ)
  deriving DecidableEq, Repr

/-- One synchronous body of `checkPageOverflow` (main.js lines 383-447),
parameterised by `state.font` (the default font used by `createNewPage`,
main.js lines 450-474).  If the current page's content height exceeds
`MAX_PAGE_HEIGHT` and the page has at least two children: append a fresh
page holding one empty default-font line when the current page is the
last one, drop the current page's last child and prepend it to the next
page after the first-empty-line removal, and follow the caret (navigate
to the next page) when it was inside the moved child.  The scheduled
re-check is `checkPageOverflowLoop` below. -/
def checkPageOverflowStep (defaultFont : String) (st : DocState) : DocState :=
  match st.pages[st.current]? with
  | none => st
  | some p =>
    if MAX_PAGE_HEIGHT < contentHeight p then
      if p.length ≤ 1 then st
      else
        match p.getLast? with
        | none => st
        | some lastB =>
          let pages1 :=
            if st.current = st.pages.length - 1 then
              st.pages ++ [[Block.line defaultFont "" 0]]
            else st.pages
          let next := (pages1[st.current + 1]?).getD []
          let pages2 := pages1.set st.current p.dropLast
          let pages3 := pages2.set (st.current + 1) (lastB :: removeFirstEmptyLine next)
          let followed := st.cursor = some (st.current, p.length - 1)
          { pages := pages3,
            current := if followed then st.current + 1 else st.current,
            cursor := if followed then some (st.current + 1, 0) else st.cursor }
    else st

/-- Whether `checkPageOverflow` fires (performs a migration and schedules
a re-check) on the state: the current page exists, its content height
exceeds the budget, and it has at least two children. -/
def fires (st : DocState) : Bool :=
  match st.pages[st.current]? with
  | none => false
  | some p => decide (MAX_PAGE_HEIGHT < contentHeight p) && decide (2 ≤ p.length)

/-- The `requestAnimationFrame` re-check chain: as long as the check
fires, perform one step and check again.  `fuel` bounds the number of
deferred ticks (the real recursion schedules one tick per migration). -/
def checkPageOverflowLoop (defaultFont : String) : ℕ → DocState → DocState
  | 0, st => st
  | fuel + 1, st =>
    if fires st then
      checkPageOverflowLoop defaultFont fuel (checkPageOverflowStep defaultFont st)
    else st

/-- Total number of blocks in the document. -/
def totalBlocks (pages : List (List Block)) : ℕ :=
  (pages.map List.length).sum

/-! ### Overflow controller lemmas -/

theorem take_set_of_le {γ : Type} (l : List γ) (i j : ℕ) (a : γ) (h : i ≤ j) :
    (l.set j a).take i = l.take i := by
  induction l generalizing i j with
  | nil => simp
  | cons x xs ih =>
    cases j with
    | zero =>
      have : i = 0 := Nat.le_zero.mp h
      simp [this]
    | succ j =>
      cases i with
      | zero => simp
      | succ i => simp [ih i j (Nat.le_of_succ_le_succ h)]

theorem totalBlocks_set (pages : List (List Block)) (i : ℕ) (q : List Block)
    (h : i < pages.length) :
    totalBlocks (pages.set i q) + ((pages[i]?).getD []).length =
      totalBlocks pages + q.length := by
  induction pages generalizing i with
  | nil => simp at h
  | cons x xs ih =>
    cases i with
    | zero => simp [totalBlocks]; omega
    | succ i =>
      have hih := ih i (by simpa using Nat.lt_of_succ_lt_succ h)
      simp only [totalBlocks, List.set, List.map_cons, List.sum_cons,
        List.getElem?_cons_succ] at hih ⊢
      omega

theorem fires_iff (st : DocState) (p : List Block)
    (hp : st.pages[st.current]? = some p) :
    fires st = true ↔ MAX_PAGE_HEIGHT < contentHeight p ∧ 2 ≤ p.length := by
  unfold fires
  rw [hp]
  simp

/-- Explicit form of one fired overflow step. -/
theorem checkPageOverflowStep_eq (defaultFont : String) (st : DocState)
    (p : List Block) (lastB : Block) (hp : st.pages[st.current]? = some p)
    (hh : MAX_PAGE_HEIGHT < contentHeight p) (h2 : 2 ≤ p.length)
    (hgl : p.getLast? = some lastB) :
    checkPageOverflowStep defaultFont st =
      { pages := (((if st.current = st.pages.length - 1
            then st.pages ++ [[Block.line defaultFont "" 0]]
            else st.pages).set st.current p.dropLast).set (st.current + 1)
          (lastB :: removeFirstEmptyLine
            (((if st.current = st.pages.length - 1
                then st.pages ++ [[Block.line defaultFont "" 0]]
                else st.pages)[st.current + 1]?).getD []))),
        current := if st.cursor = some (st.current, p.length - 1)
          then st.current + 1 else st.current,
        cursor := if st.cursor = some (st.current, p.length - 1)
          then some (st.current + 1, 0) else st.cursor } := by
  unfold checkPageOverflowStep
  rw [hp]
  dsimp only
  rw [if_pos hh, if_neg (by omega : ¬p.length ≤ 1), hgl]

/-- Effect of a fired step on the source page when the caret is not
inside the migrated (last) block: the current index and the caret are
unchanged, the source page loses exactly its last block, and earlier
pages are untouched. -/
theorem checkPageOverflowStep_nofollow (defaultFont : String) (st : DocState)
    (p : List Block) (hfol : st.cursor ≠ some (st.current, p.length - 1))
    (hp : st.pages[st.current]? = some p)
    (hh : MAX_PAGE_HEIGHT < contentHeight p) (h2 : 2 ≤ p.length) :
    (checkPageOverflowStep defaultFont st).current = st.current ∧
    (checkPageOverflowStep defaultFont st).cursor = st.cursor ∧
    (checkPageOverflowStep defaultFont st).pages[st.current]? = some p.dropLast ∧
    (checkPageOverflowStep defaultFont st).pages.take st.current =
      st.pages.take st.current := by
  have hlt : st.current < st.pages.length := by
    by_contra hge
    rw [List.getElem?_eq_none (Nat.le_of_not_lt hge)] at hp
    exact Option.noConfusion hp
  have hne : p ≠ [] := by
    intro h; subst h; simp at h2
  have hgl : p.getLast? = some (p.getLast hne) := List.getLast?_eq_getLast p hne
  rw [checkPageOverflowStep_eq defaultFont st p (p.getLast hne) hp hh h2 hgl]
  rw [if_neg hfol, if_neg hfol]
  refine ⟨rfl, rfl, ?_, ?_⟩
  · have hlt1 : st.current <
        (if st.current = st.pages.length - 1
          then st.pages ++ [[Block.line defaultFont "" 0]]
          else st.pages).length := by
      by_cases hl : st.current = st.pages.length - 1
      · rw [if_pos hl]; simp; omega
      · rw [if_neg hl]; exact hlt
    rw [List.getElem?_set_ne (by omega : st.current + 1 ≠ st.current),
      List.getElem?_set_self (by simpa using hlt1)]
  · rw [take_set_of_le _ st.current (st.current + 1) _ (by omega),
      take_set_of_le _ st.current st.current _ (le_refl _)]
    by_cases hl : st.current = st.pages.length - 1
    · rw [if_pos hl, List.take_append_of_le_length (Nat.le_of_lt hlt)]
    · rw [if_neg hl]

/-- Effect of a fired step when the caret sits inside the migrated
(last) block: the caret is followed, so the next page becomes current and
the caret lands on its first block; the new current page exists. -/
theorem checkPageOverflowStep_followed (defaultFont : String) (st : DocState)
    (p : List Block) (hfol : st.cursor = some (st.current, p.length - 1))
    (hp : st.pages[st.current]? = some p)
    (hh : MAX_PAGE_HEIGHT < contentHeight p) (h2 : 2 ≤ p.length) :
    (checkPageOverflowStep defaultFont st).current = st.current + 1 ∧
    (checkPageOverflowStep defaultFont st).cursor = some (st.current + 1, 0) ∧
    ∃ q, (checkPageOverflowStep defaultFont st).pages[st.current + 1]? = some q := by
  have hlt : st.current < st.pages.length := by
    by_contra hge
    rw [List.getElem?_eq_none (Nat.le_of_not_lt hge)] at hp
    exact Option.noConfusion hp
  have hne : p ≠ [] := by
    intro h; subst h; simp at h2
  have hgl : p.getLast? = some (p.getLast hne) := List.getLast?_eq_getLast p hne
  rw [checkPageOverflowStep_eq defaultFont st p (p.getLast hne) hp hh h2 hgl]
  rw [if_pos hfol, if_pos hfol]
  refine ⟨rfl, rfl, ⟨_, List.getElem?_set_self ?_⟩⟩
  rw [List.length_set]
  by_cases hl : st.current = st.pages.length - 1
  · rw [if_pos hl]; simp; omega
  · rw [if_neg hl]; omega

/-- Once the check no longer fires, further deferred ticks change
nothing. -/
theorem checkPageOverflowLoop_stable (defaultFont : String) (st : DocState)
    (h : fires st = false) :
    ∀ fuel, checkPageOverflowLoop defaultFont fuel st = st := by
  intro fuel
  cases fuel with
  | zero => rfl
  | succ fuel => rw [checkPageOverflowLoop, if_neg (by simp [h])]

/-- Full behaviour of the deferred re-check chain when the caret (if
any) does not rest inside a block that the minimal migration would move:
on the source page it may only sit in a block whose prefix still fits the
budget, or in the very first block, or out of range; carets on other
pages are unrestricted.  With enough fuel the chain terminates in a state
where the check no longer fires; the source page keeps exactly its first
`m` blocks for some `m`, where the kept prefix fits the budget or is a
single block, every longer prefix overflows (so the number of migrated
trailing blocks is minimal), earlier pages are untouched, and the
current index and the caret never move. -/
theorem checkPageOverflowLoop_spec (defaultFont : String) :
    ∀ (fuel : ℕ) (st : DocState) (p : List Block),
      (∀ j, st.cursor = some (st.current, j) →
        contentHeight (p.take (j + 1)) ≤ MAX_PAGE_HEIGHT ∨ j = 0 ∨ p.length ≤ j) →
      st.pages[st.current]? = some p →
      p.length ≤ fuel →
      ∃ m, m ≤ p.length ∧
        (checkPageOverflowLoop defaultFont fuel st).current = st.current ∧
        (checkPageOverflowLoop defaultFont fuel st).cursor = st.cursor ∧
        (checkPageOverflowLoop defaultFont fuel st).pages[st.current]? =
          some (p.take m) ∧
        (checkPageOverflowLoop defaultFont fuel st).pages.take st.current =
          st.pages.take st.current ∧
        (contentHeight (p.take m) ≤ MAX_PAGE_HEIGHT ∨ m = 1) ∧
        (∀ j, m < j → j ≤ p.length → MAX_PAGE_HEIGHT < contentHeight (p.take j)) ∧
        fires (checkPageOverflowLoop defaultFont fuel st) = false := by
  intro fuel
  induction fuel with
  | zero =>
    intro st p hcaret hp hlen
    have hp0 : p = [] := List.length_eq_zero.mp (Nat.le_zero.mp hlen)
    subst hp0
    refine ⟨0, le_refl _, rfl, rfl, by simpa using hp, rfl, ?_, ?_, ?_⟩
    · left; decide
    · intro j hj hj2; omega
    · show fires st = false
      unfold fires
      rw [hp]
      simp
  | succ fuel ih =>
    intro st p hcaret hp hlen
    by_cases hf : fires st = true
    · obtain ⟨hh, h2⟩ := (fires_iff st p hp).mp hf
      rw [checkPageOverflowLoop, if_pos (by simp [hf])]
      have hdl : ∀ k, k ≤ p.length - 1 → p.dropLast.take k = p.take k := by
        intro k hk
        rw [List.dropLast_eq_take, List.take_take, Nat.min_eq_left hk]
      have hfol : st.cursor ≠ some (st.current, p.length - 1) := by
        intro heq
        rcases hcaret (p.length - 1) heq with hca | hca | hca
        · have hone : p.length - 1 + 1 = p.length := by omega
          rw [hone, List.take_length] at hca
          omega
        · omega
        · omega
      obtain ⟨hcur, hcur2, hpage, htake⟩ :=
        checkPageOverflowStep_nofollow defaultFont st p hfol hp hh h2
      set st' := checkPageOverflowStep defaultFont st with hst'
      have hlen' : p.dropLast.length ≤ fuel := by
        rw [List.length_dropLast]; omega
      have hpage' : st'.pages[st'.current]? = some p.dropLast := by
        rw [hcur]; exact hpage
      have hcaret' : ∀ j, st'.cursor = some (st'.current, j) →
          contentHeight (p.dropLast.take (j + 1)) ≤ MAX_PAGE_HEIGHT ∨ j = 0 ∨
            p.dropLast.length ≤ j := by
        intro j hj
        rw [hcur2, hcur] at hj
        rcases hcaret j hj with hca | hca | hca
        · by_cases hjl : j + 1 ≤ p.length - 1
          · left
            rw [hdl (j + 1) hjl]
            exact hca
          · right; right
            rw [List.length_dropLast]
            omega
        · right; left; exact hca
        · right; right
          rw [List.length_dropLast]
          omega
      obtain ⟨m, hm, ih1, ih2, ih3, ih4, ih5, ih6, ih7⟩ :=
        ih st' p.dropLast hcaret' hpage' hlen'
      have hmlen : m ≤ p.length - 1 := by
        rw [List.length_dropLast] at hm; exact hm
      refine ⟨m, by omega, ?_, ?_, ?_, ?_, ?_, ?_, ih7⟩
      · rw [ih1, hcur]
      · rw [ih2, hcur2]
      · rw [hcur] at ih3
        rw [hdl m hmlen] at ih3
        exact ih3
      · rw [hcur] at ih4
        exact ih4.trans htake
      · rw [hdl m hmlen] at ih5
        exact ih5
      · intro j hj hj2
        by_cases hjl : j ≤ p.length - 1
        · have := ih6 j hj (by rw [List.length_dropLast]; exact hjl)
          rw [hdl j hjl] at this
          exact this
        · have hje : j = p.length := by omega
          rw [hje, List.take_length]
          exact hh
    · have hf' : fires st = false := by
        cases h : fires st
        · rfl
        · exact absurd h hf
      rw [checkPageOverflowLoop_stable defaultFont st hf']
      refine ⟨p.length, le_refl _, rfl, rfl, by rw [List.take_length]; exact hp,
        rfl, ?_, ?_, hf'⟩
      · rw [fires_iff st p hp] at hf
        rw [not_and_or] at hf
        rcases hf with hf | hf
        · left; rw [List.take_length]; exact Nat.le_of_not_lt hf
        · have : p.length ≤ 1 := by omega
          interval_cases h : p.length
          · left
            have : p = [] := List.length_eq_zero.mp h
            rw [this]
            decide
          · right; rfl
      · intro j hj hj2; omega

/-- The re-check chain reaches a fixpoint from every state, whatever the
caret: at most one caret-follow can ever happen, because after a follow
the caret sits on block 0 of the new current page, and a further follow
would need that page to have exactly one block — in which case the check
does not fire.  Induction is on a bound for the current page's length:
an unfollowed fired step shrinks the current page, and a followed step
lands in a state the caret-restricted spec already covers. -/
theorem checkPageOverflowLoop_fixpoint_aux (defaultFont : String) :
    ∀ (len : ℕ) (st : DocState),
      (∀ p, st.pages[st.current]? = some p → p.length ≤ len) →
      ∃ n, fires (checkPageOverflowLoop defaultFont n st) = false := by
  intro len
  induction len with
  | zero =>
    intro st hlen
    by_cases hf : fires st = true
    · exfalso
      unfold fires at hf
      cases hq : st.pages[st.current]? with
      | none => rw [hq] at hf; simp at hf
      | some p =>
        rw [hq] at hf
        simp at hf
        have := hlen p hq
        omega
    · have hf' : fires st = false := by
        cases h : fires st
        · rfl
        · exact absurd h hf
      exact ⟨0, hf'⟩
  | succ len ih =>
    intro st hlen
    by_cases hf : fires st = true
    · cases hq : st.pages[st.current]? with
      | none =>
        exfalso
        unfold fires at hf
        rw [hq] at hf
        simp at hf
      | some p =>
        obtain ⟨hh, h2⟩ := (fires_iff st p hq).mp hf
        by_cases hfol : st.cursor = some (st.current, p.length - 1)
        · obtain ⟨hcur, hcur2, q, hqpage⟩ :=
            checkPageOverflowStep_followed defaultFont st p hfol hq hh h2
          set st' := checkPageOverflowStep defaultFont st with hst'
          have hqpage' : st'.pages[st'.current]? = some q := by
            rw [hcur]; exact hqpage
          have hcaret' : ∀ j, st'.cursor = some (st'.current, j) →
              contentHeight (q.take (j + 1)) ≤ MAX_PAGE_HEIGHT ∨ j = 0 ∨
                q.length ≤ j := by
            intro j hj
            rw [hcur2, hcur] at hj
            right; left
            simp at hj
            omega
          obtain ⟨m, _, _, _, _, _, _, _, hfix⟩ :=
            checkPageOverflowLoop_spec defaultFont q.length st' q hcaret'
              hqpage' (le_refl _)
          exact ⟨q.length + 1,
            by rw [checkPageOverflowLoop, if_pos (by simp [hf])]; exact hfix⟩
        · obtain ⟨hcur, hcur2, hpage, _⟩ :=
            checkPageOverflowStep_nofollow defaultFont st p hfol hq hh h2
          set st' := checkPageOverflowStep defaultFont st with hst'
          have hlen' : ∀ p', st'.pages[st'.current]? = some p' →
              p'.length ≤ len := by
            intro p' hp'
            rw [hcur, hpage] at hp'
            have hp'' : p.dropLast = p' := by
              injection hp'
            have := hlen p hq
            rw [← hp'', List.length_dropLast]
            omega
          obtain ⟨n, hn⟩ := ih st' hlen'
          exact ⟨n + 1,
            by rw [checkPageOverflowLoop, if_pos (by simp [hf])]; exact hn⟩
    · have hf' : fires st = false := by
        cases h : fires st
        · rfl
        · exact absurd h hf
      exact ⟨0, hf'⟩

/-- Unconditional termination of the re-check chain: from every state
there is a tick count after which the check no longer fires, and all
further ticks are the identity. -/
theorem checkPageOverflowLoop_terminates (defaultFont : String) (st : DocState) :
    ∃ n, fires (checkPageOverflowLoop defaultFont n st) = false ∧
      ∀ k, checkPageOverflowLoop defaultFont k
          (checkPageOverflowLoop defaultFont n st) =
        checkPageOverflowLoop defaultFont n st := by
  obtain ⟨n, hn⟩ := checkPageOverflowLoop_fixpoint_aux defaultFont
    ((st.pages[st.current]?).getD []).length st
    (fun p hp => by rw [hp]; simp)
  exact ⟨n, hn, fun k => checkPageOverflowLoop_stable defaultFont _ hn k⟩

theorem totalBlocks_append (ps : List (List Block)) (q : List Block) :
    totalBlocks (ps ++ [q]) = totalBlocks ps + q.length := by
  simp [totalBlocks]

/-! ### Claim theorems about the overflow controller -/

/-- C3 (counterexample): when the next page starts with an image block
followed by a whitespace-only text line, the claim as stated predicts no
discard (the next page's *first block* is not an empty `TextLine`), but
the code removes the first `.line` found by the `querySelector`, i.e. the
whitespace-only line hiding behind the image. -/
theorem overflow_step_migration_cex :
    (checkPageOverflowStep "special-elite"
        ⟨[[Block.line "f" "a" 600, Block.line "f" "b" 700],
          [Block.image 100 100 false 100, Block.line "f" " " 30,
           Block.line "f" "x" 30]], 0, none⟩).pages =
      [[Block.line "f" "a" 600],
       [Block.line "f" "b" 700, Block.image 100 100 false 100,
        Block.line "f" "x" 30]] ∧
    (checkPageOverflowStep "special-elite"
        ⟨[[Block.line "f" "a" 600, Block.line "f" "b" 700],
          [Block.image 100 100 false 100, Block.line "f" " " 30,
           Block.line "f" "x" 30]], 0, none⟩).pages[1]? ≠
      some [Block.line "f" "b" 700, Block.image 100 100 false 100,
        Block.line "f" " " 30, Block.line "f" "x" 30] := by
  constructor
  · decide
  · decide

/-- C3 (amended): whenever the active page's content height exceeds the
budget and it holds at least two blocks, one overflow step appends a new
page exactly when the active page is the last one, removes the last block
of the active page and prepends it to the next page's sequence — after
first discarding the next page's first *text line* (found by skipping any
leading non-text blocks) when that line's content is empty or
whitespace-only.  Earlier pages are untouched.  When a fresh page was
appended, its placeholder line is itself empty, so the next page ends up
holding exactly the migrated block. -/
theorem overflow_step_migration (defaultFont : String) (st : DocState)
    (p : List Block) (hp : st.pages[st.current]? = some p)
    (hh : MAX_PAGE_HEIGHT < contentHeight p) (h2 : 2 ≤ p.length) :
    ∃ lastB, p = p.dropLast ++ [lastB] ∧
      (checkPageOverflowStep defaultFont st).pages[st.current]? = some p.dropLast ∧
      (checkPageOverflowStep defaultFont st).pages.take st.current =
        st.pages.take st.current ∧
      (st.current = st.pages.length - 1 →
        (checkPageOverflowStep defaultFont st).pages.length = st.pages.length + 1 ∧
        (checkPageOverflowStep defaultFont st).pages[st.current + 1]? = some [lastB]) ∧
      (st.current ≠ st.pages.length - 1 →
        (checkPageOverflowStep defaultFont st).pages.length = st.pages.length ∧
        (checkPageOverflowStep defaultFont st).pages[st.current + 1]? =
          some (lastB :: removeFirstEmptyLine ((st.pages[st.current + 1]?).getD []))) := by
  have hlt : st.current < st.pages.length := by
    by_contra hge
    rw [List.getElem?_eq_none (Nat.le_of_not_lt hge)] at hp
    exact Option.noConfusion hp
  have hne : p ≠ [] := by
    intro h; subst h; simp at h2
  have hgl : p.getLast? = some (p.getLast hne) := List.getLast?_eq_getLast p hne
  refine ⟨p.getLast hne, (List.dropLast_append_getLast hne).symm, ?_⟩
  rw [checkPageOverflowStep_eq defaultFont st p (p.getLast hne) hp hh h2 hgl]
  by_cases hl : st.current = st.pages.length - 1
  · rw [if_pos hl]
    dsimp only
    have hnext : (st.pages ++ [[Block.line defaultFont "" 0]])[st.current + 1]? =
        some [Block.line defaultFont "" 0] := by
      rw [List.getElem?_append_right (by omega)]
      have h0 : st.current + 1 - st.pages.length = 0 := by omega
      rw [h0]
      rfl
    refine ⟨?_, ?_, fun _ => ⟨by simp, ?_⟩, fun hne2 => absurd hl hne2⟩
    · rw [List.getElem?_set_ne (by omega : st.current + 1 ≠ st.current),
        List.getElem?_set_self (by simp; omega)]
    · rw [take_set_of_le _ st.current (st.current + 1) _ (by omega),
        take_set_of_le _ st.current st.current _ (le_refl _),
        List.take_append_of_le_length (Nat.le_of_lt hlt)]
    · rw [List.getElem?_set_self (by simp; omega), hnext]
      rfl
  · rw [if_neg hl]
    dsimp only
    have hlt1 : st.current + 1 < st.pages.length := by omega
    refine ⟨?_, ?_, fun heq => absurd heq hl, fun _ => ⟨by simp, ?_⟩⟩
    · rw [List.getElem?_set_ne (by omega : st.current + 1 ≠ st.current),
        List.getElem?_set_self hlt]
    · rw [take_set_of_le _ st.current (st.current + 1) _ (by omega),
        take_set_of_le _ st.current st.current _ (le_refl _)]
    · rw [List.getElem?_set_self (by simp; omega)]

/-- Witness for C3 (amended) on a concrete two-page document whose next
page starts with a non-empty line. -/
theorem overflow_step_migration_witness :
    ((⟨[[Block.line "f" "a" 600, Block.line "f" "b" 700],
        [Block.line "f" "x" 30]], 0, none⟩ : DocState).pages[0]? =
      some [Block.line "f" "a" 600, Block.line "f" "b" 700]) ∧
    MAX_PAGE_HEIGHT < contentHeight [Block.line "f" "a" 600, Block.line "f" "b" 700] ∧
    2 ≤ ([Block.line "f" "a" 600, Block.line "f" "b" 700] : List Block).length ∧
    (∃ lastB, [Block.line "f" "a" 600, Block.line "f" "b" 700] =
        ([Block.line "f" "a" 600, Block.line "f" "b" 700] : List Block).dropLast ++ [lastB] ∧
      (checkPageOverflowStep "special-elite"
          ⟨[[Block.line "f" "a" 600, Block.line "f" "b" 700],
            [Block.line "f" "x" 30]], 0, none⟩).pages[(0 : ℕ)]? =
        some ([Block.line "f" "a" 600, Block.line "f" "b" 700] : List Block).dropLast ∧
      (checkPageOverflowStep "special-elite"
          ⟨[[Block.line "f" "a" 600, Block.line "f" "b" 700],
            [Block.line "f" "x" 30]], 0, none⟩).pages.take 0 =
        ([[Block.line "f" "a" 600, Block.line "f" "b" 700],
          [Block.line "f" "x" 30]] : List (List Block)).take 0 ∧
      ((0 : ℕ) = ([[Block.line "f" "a" 600, Block.line "f" "b" 700],
          [Block.line "f" "x" 30]] : List (List Block)).length - 1 →
        (checkPageOverflowStep "special-elite"
            ⟨[[Block.line "f" "a" 600, Block.line "f" "b" 700],
              [Block.line "f" "x" 30]], 0, none⟩).pages.length =
          ([[Block.line "f" "a" 600, Block.line "f" "b" 700],
            [Block.line "f" "x" 30]] : List (List Block)).length + 1 ∧
        (checkPageOverflowStep "special-elite"
            ⟨[[Block.line "f" "a" 600, Block.line "f" "b" 700],
              [Block.line "f" "x" 30]], 0, none⟩).pages[(0 : ℕ) + 1]? =
          some [lastB]) ∧
      ((0 : ℕ) ≠ ([[Block.line "f" "a" 600, Block.line "f" "b" 700],
          [Block.line "f" "x" 30]] : List (List Block)).length - 1 →
        (checkPageOverflowStep "special-elite"
            ⟨[[Block.line "f" "a" 600, Block.line "f" "b" 700],
              [Block.line "f" "x" 30]], 0, none⟩).pages.length =
          ([[Block.line "f" "a" 600, Block.line "f" "b" 700],
            [Block.line "f" "x" 30]] : List (List Block)).length ∧
        (checkPageOverflowStep "special-elite"
            ⟨[[Block.line "f" "a" 600, Block.line "f" "b" 700],
              [Block.line "f" "x" 30]], 0, none⟩).pages[(0 : ℕ) + 1]? =
          some (lastB :: removeFirstEmptyLine
            ((([[Block.line "f" "a" 600, Block.line "f" "b" 700],
               [Block.line "f" "x" 30]] : List (List Block))[(0 : ℕ) + 1]?).getD [])))) :=
  ⟨rfl, by decide, by decide,
    overflow_step_migration "special-elite"
      ⟨[[Block.line "f" "a" 600, Block.line "f" "b" 700],
        [Block.line "f" "x" 30]], 0, none⟩
      [Block.line "f" "a" 600, Block.line "f" "b" 700] rfl (by decide) (by decide)⟩

/-- C4 (counterexample): when the caret rides the migrated block, the
re-check continues on the destination page, so the recursion terminates
with the source page still over budget and holding two blocks. -/
theorem overflow_convergence_cex :
    checkPageOverflowLoop "special-elite" 3
        ⟨[[Block.line "special-elite" "a" 600, Block.line "special-elite" "b" 600,
           Block.line "special-elite" "c" 60]], 0, some (0, 2)⟩ =
      ⟨[[Block.line "special-elite" "a" 600, Block.line "special-elite" "b" 600],
        [Block.line "special-elite" "c" 60]], 1, some (1, 0)⟩ ∧
    checkPageOverflowLoop "special-elite" 10
        ⟨[[Block.line "special-elite" "a" 600, Block.line "special-elite" "b" 600,
           Block.line "special-elite" "c" 60]], 0, some (0, 2)⟩ =
      checkPageOverflowLoop "special-elite" 3
        ⟨[[Block.line "special-elite" "a" 600, Block.line "special-elite" "b" 600,
           Block.line "special-elite" "c" 60]], 0, some (0, 2)⟩ ∧
    MAX_PAGE_HEIGHT < contentHeight [Block.line "special-elite" "a" 600,
      Block.line "special-elite" "b" 600] ∧
    ([Block.line "special-elite" "a" 600,
      Block.line "special-elite" "b" 600] : List Block).length ≠ 1 :=
  ⟨by decide, by decide, by decide, by decide⟩

/-- C4 (amended): the deferred re-check chain always terminates — from
every state there is a tick after which the check no longer fires, and
further ticks change nothing.  Moreover, provided the caret is not
inside a block the migration moves (it may be absent, rest on another
page, or rest on the source page in any block whose prefix still fits
the budget, in the very first block, or out of range), the source page
keeps exactly a prefix of its blocks, the kept prefix fits the budget or
is a single block, every longer prefix overflows (so the number of
migrated trailing blocks is minimal), earlier pages never receive blocks
back, and the current index and the caret do not move. -/
theorem overflow_convergence (defaultFont : String) (fuel : ℕ) (st : DocState)
    (p : List Block)
    (hp : st.pages[st.current]? = some p) (hfuel : p.length ≤ fuel)
    (hcaret : ∀ j, st.cursor = some (st.current, j) →
      contentHeight (p.take (j + 1)) ≤ MAX_PAGE_HEIGHT ∨ j = 0 ∨ p.length ≤ j) :
    (∀ st2 : DocState, ∃ n,
      fires (checkPageOverflowLoop defaultFont n st2) = false ∧
      ∀ k, checkPageOverflowLoop defaultFont k
          (checkPageOverflowLoop defaultFont n st2) =
        checkPageOverflowLoop defaultFont n st2) ∧
    (checkPageOverflowLoop defaultFont fuel st).current = st.current ∧
    (checkPageOverflowLoop defaultFont fuel st).cursor = st.cursor ∧
    ∃ m, m ≤ p.length ∧
      (checkPageOverflowLoop defaultFont fuel st).pages[st.current]? =
        some (p.take m) ∧
      (checkPageOverflowLoop defaultFont fuel st).pages.take st.current =
        st.pages.take st.current ∧
      (contentHeight (p.take m) ≤ MAX_PAGE_HEIGHT ∨ m = 1) ∧
      (∀ j, m < j → j ≤ p.length → MAX_PAGE_HEIGHT < contentHeight (p.take j)) ∧
      (∀ k, checkPageOverflowLoop defaultFont k
          (checkPageOverflowLoop defaultFont fuel st) =
        checkPageOverflowLoop defaultFont fuel st) := by
  obtain ⟨m, hm, h1, h2, h3, h4, h5, h6, h7⟩ :=
    checkPageOverflowLoop_spec defaultFont fuel st p hcaret hp hfuel
  exact ⟨fun st2 => checkPageOverflowLoop_terminates defaultFont st2,
    h1, h2, m, hm, h3, h4, h5, h6,
    fun k => checkPageOverflowLoop_stable defaultFont _ h7 k⟩

/-- Witness for C4 (amended): a caret resting in the first (retained)
block of a concrete one-page document that needs two migrations. -/
theorem overflow_convergence_witness :
    ((⟨[[Block.line "g" "a" 600, Block.line "g" "b" 600, Block.line "g" "c" 60]], 0, some (0, 0)⟩ : DocState).pages[(0 : ℕ)]? = some [Block.line "g" "a" 600, Block.line "g" "b" 600, Block.line "g" "c" 60]) ∧
    ([Block.line "g" "a" 600, Block.line "g" "b" 600, Block.line "g" "c" 60] : List Block).length ≤ 3 ∧
    (∀ j, (⟨[[Block.line "g" "a" 600, Block.line "g" "b" 600, Block.line "g" "c" 60]], 0, some (0, 0)⟩ : DocState).cursor = some ((⟨[[Block.line "g" "a" 600, Block.line "g" "b" 600, Block.line "g" "c" 60]], 0, some (0, 0)⟩ : DocState).current, j) →
      contentHeight (([Block.line "g" "a" 600, Block.line "g" "b" 600, Block.line "g" "c" 60] : List Block).take (j + 1)) ≤ MAX_PAGE_HEIGHT ∨
        j = 0 ∨ ([Block.line "g" "a" 600, Block.line "g" "b" 600, Block.line "g" "c" 60] : List Block).length ≤ j) ∧
    ((∀ st2 : DocState, ∃ n,
      fires (checkPageOverflowLoop "special-elite" n st2) = false ∧
      ∀ k, checkPageOverflowLoop "special-elite" k
          (checkPageOverflowLoop "special-elite" n st2) =
        checkPageOverflowLoop "special-elite" n st2) ∧
    (checkPageOverflowLoop "special-elite" 3 (⟨[[Block.line "g" "a" 600, Block.line "g" "b" 600, Block.line "g" "c" 60]], 0, some (0, 0)⟩ : DocState)).current = (⟨[[Block.line "g" "a" 600, Block.line "g" "b" 600, Block.line "g" "c" 60]], 0, some (0, 0)⟩ : DocState).current ∧
    (checkPageOverflowLoop "special-elite" 3 (⟨[[Block.line "g" "a" 600, Block.line "g" "b" 600, Block.line "g" "c" 60]], 0, some (0, 0)⟩ : DocState)).cursor = (⟨[[Block.line "g" "a" 600, Block.line "g" "b" 600, Block.line "g" "c" 60]], 0, some (0, 0)⟩ : DocState).cursor ∧
    ∃ m, m ≤ ([Block.line "g" "a" 600, Block.line "g" "b" 600, Block.line "g" "c" 60] : List Block).length ∧
      (checkPageOverflowLoop "special-elite" 3 (⟨[[Block.line "g" "a" 600, Block.line "g" "b" 600, Block.line "g" "c" 60]], 0, some (0, 0)⟩ : DocState)).pages[(0 : ℕ)]? = some (([Block.line "g" "a" 600, Block.line "g" "b" 600, Block.line "g" "c" 60] : List Block).take m) ∧
      (checkPageOverflowLoop "special-elite" 3 (⟨[[Block.line "g" "a" 600, Block.line "g" "b" 600, Block.line "g" "c" 60]], 0, some (0, 0)⟩ : DocState)).pages.take 0 = ([[Block.line "g" "a" 600, Block.line "g" "b" 600, Block.line "g" "c" 60]] : List (List Block)).take 0 ∧
      (contentHeight (([Block.line "g" "a" 600, Block.line "g" "b" 600, Block.line "g" "c" 60] : List Block).take m) ≤ MAX_PAGE_HEIGHT ∨ m = 1) ∧
      (∀ j, m < j → j ≤ ([Block.line "g" "a" 600, Block.line "g" "b" 600, Block.line "g" "c" 60] : List Block).length →
        MAX_PAGE_HEIGHT < contentHeight (([Block.line "g" "a" 600, Block.line "g" "b" 600, Block.line "g" "c" 60] : List Block).take j)) ∧
      (∀ k, checkPageOverflowLoop "special-elite" k (checkPageOverflowLoop "special-elite" 3 (⟨[[Block.line "g" "a" 600, Block.line "g" "b" 600, Block.line "g" "c" 60]], 0, some (0, 0)⟩ : DocState)) = checkPageOverflowLoop "special-elite" 3 (⟨[[Block.line "g" "a" 600, Block.line "g" "b" 600, Block.line "g" "c" 60]], 0, some (0, 0)⟩ : DocState))) := by
  have hcar : ∀ j, (⟨[[Block.line "g" "a" 600, Block.line "g" "b" 600, Block.line "g" "c" 60]], 0, some (0, 0)⟩ : DocState).cursor =
      some ((⟨[[Block.line "g" "a" 600, Block.line "g" "b" 600, Block.line "g" "c" 60]], 0, some (0, 0)⟩ : DocState).current, j) →
      contentHeight (([Block.line "g" "a" 600, Block.line "g" "b" 600, Block.line "g" "c" 60] : List Block).take (j + 1)) ≤ MAX_PAGE_HEIGHT ∨
        j = 0 ∨ ([Block.line "g" "a" 600, Block.line "g" "b" 600, Block.line "g" "c" 60] : List Block).length ≤ j := by
    intro j hj
    right; left
    simp only [Option.some.injEq, Prod.mk.injEq] at hj
    omega
  exact ⟨rfl, by decide, hcar,
    overflow_convergence "special-elite" 3 (⟨[[Block.line "g" "a" 600, Block.line "g" "b" 600, Block.line "g" "c" 60]], 0, some (0, 0)⟩ : DocState) [Block.line "g" "a" 600, Block.line "g" "b" 600, Block.line "g" "c" 60] rfl
      (by decide) hcar⟩

/-- C5 (counterexample): a fired overflow pass can destroy a block.
Here the existing next page consists of one empty line; the pass removes
it before prepending the migrated block, so the document goes from three
blocks to two. -/
theorem overflow_block_accounting_cex :
    totalBlocks (checkPageOverflowStep "special-elite"
        ⟨[[Block.line "f" "a" 600, Block.line "f" "b" 700],
          [Block.line "f" "" 30]], 0, none⟩).pages = 2 ∧
    totalBlocks [[Block.line "f" "a" 600, Block.line "f" "b" 700],
      [Block.line "f" "" 30]] = 3 :=
  ⟨by decide, by decide⟩

/-- C5 (amended): a fired overflow pass preserves the total number of
blocks when it appends a fresh page (the fresh placeholder line is
created and immediately discarded); when the next page already exists,
the total changes exactly by the length difference introduced by the
first-empty-line removal on that next page — i.e. the count is preserved
unless a whitespace-only first text line of the next page is discarded,
in which case it drops by one. -/
theorem overflow_block_accounting (defaultFont : String) (st : DocState)
    (p : List Block) (hp : st.pages[st.current]? = some p)
    (hh : MAX_PAGE_HEIGHT < contentHeight p) (h2 : 2 ≤ p.length) :
    (st.current = st.pages.length - 1 →
      totalBlocks (checkPageOverflowStep defaultFont st).pages =
        totalBlocks st.pages) ∧
    (st.current ≠ st.pages.length - 1 →
      totalBlocks (checkPageOverflowStep defaultFont st).pages +
        ((st.pages[st.current + 1]?).getD []).length =
      totalBlocks st.pages +
        (removeFirstEmptyLine ((st.pages[st.current + 1]?).getD [])).length) := by
  have hlt : st.current < st.pages.length := by
    by_contra hge
    rw [List.getElem?_eq_none (Nat.le_of_not_lt hge)] at hp
    exact Option.noConfusion hp
  have hne : p ≠ [] := by
    intro h; subst h; simp at h2
  have hgl : p.getLast? = some (p.getLast hne) := List.getLast?_eq_getLast p hne
  rw [checkPageOverflowStep_eq defaultFont st p (p.getLast hne) hp hh h2 hgl]
  by_cases hl : st.current = st.pages.length - 1
  · rw [if_pos hl]
    dsimp only
    refine ⟨fun _ => ?_, fun hne2 => absurd hl hne2⟩
    set pages1 := st.pages ++ [[Block.line defaultFont "" 0]] with hpages1
    have hnext : pages1[st.current + 1]? = some [Block.line defaultFont "" 0] := by
      rw [hpages1, List.getElem?_append_right (by omega)]
      have h0 : st.current + 1 - st.pages.length = 0 := by omega
      rw [h0]
      rfl
    rw [hnext]
    have hrm : (Option.getD (some [Block.line defaultFont "" 0]) []) =
        [Block.line defaultFont "" 0] := Option.getD_some
    rw [hrm]
    have hrm2 : removeFirstEmptyLine [Block.line defaultFont "" 0] = [] := rfl
    rw [hrm2]
    have hb1 : totalBlocks ((pages1.set st.current p.dropLast).set (st.current + 1)
          [p.getLast hne]) +
        (((pages1.set st.current p.dropLast)[st.current + 1]?).getD []).length =
        totalBlocks (pages1.set st.current p.dropLast) + 1 :=
      totalBlocks_set _ _ _ (by rw [List.length_set, hpages1]; simp; omega)
    have hb2 : totalBlocks (pages1.set st.current p.dropLast) +
        ((pages1[st.current]?).getD []).length =
        totalBlocks pages1 + p.dropLast.length :=
      totalBlocks_set _ _ _ (by rw [hpages1]; simp; omega)
    have hg1 : (pages1.set st.current p.dropLast)[st.current + 1]? =
        some [Block.line defaultFont "" 0] := by
      rw [List.getElem?_set_ne (by omega : st.current ≠ st.current + 1), hnext]
    have hg2 : pages1[st.current]? = some p := by
      rw [hpages1, List.getElem?_append_left hlt, hp]
    have hb3 : totalBlocks pages1 = totalBlocks st.pages + 1 := by
      rw [hpages1, totalBlocks_append]
      simp
    rw [hg1] at hb1
    rw [hg2] at hb2
    simp only [Option.getD_some] at hb1 hb2
    have hdl : p.dropLast.length = p.length - 1 := List.length_dropLast p
    simp only [List.length_cons, List.length_nil] at hb1 hb2
    omega
  · rw [if_neg hl]
    dsimp only
    refine ⟨fun heq => absurd heq hl, fun _ => ?_⟩
    have hlt1 : st.current + 1 < st.pages.length := by omega
    set next := (st.pages[st.current + 1]?).getD [] with hnextdef
    have hb1 : totalBlocks ((st.pages.set st.current p.dropLast).set (st.current + 1)
          (p.getLast hne :: removeFirstEmptyLine next)) +
        (((st.pages.set st.current p.dropLast)[st.current + 1]?).getD []).length =
        totalBlocks (st.pages.set st.current p.dropLast) +
          (p.getLast hne :: removeFirstEmptyLine next).length :=
      totalBlocks_set _ _ _ (by rw [List.length_set]; omega)
    have hb2 : totalBlocks (st.pages.set st.current p.dropLast) +
        ((st.pages[st.current]?).getD []).length =
        totalBlocks st.pages + p.dropLast.length :=
      totalBlocks_set _ _ _ hlt
    have hg1 : (st.pages.set st.current p.dropLast)[st.current + 1]? =
        st.pages[st.current + 1]? :=
      List.getElem?_set_ne (by omega : st.current ≠ st.current + 1)
    rw [hg1] at hb1
    rw [← hnextdef] at hb1
    rw [hp] at hb2
    simp only [Option.getD_some, List.length_cons] at hb1 hb2
    have hdl : p.dropLast.length = p.length - 1 := List.length_dropLast p
    omega

/-- Witness for C5 (amended): migrating onto a next page whose first line
is non-empty preserves the block count. -/
theorem overflow_block_accounting_witness :
    ((⟨[[Block.line "f" "a" 600, Block.line "f" "b" 700],
        [Block.line "f" "x" 30]], 0, none⟩ : DocState).pages[(0 : ℕ)]? =
      some [Block.line "f" "a" 600, Block.line "f" "b" 700]) ∧
    MAX_PAGE_HEIGHT < contentHeight [Block.line "f" "a" 600, Block.line "f" "b" 700] ∧
    2 ≤ ([Block.line "f" "a" 600, Block.line "f" "b" 700] : List Block).length ∧
    (((0 : ℕ) = ([[Block.line "f" "a" 600, Block.line "f" "b" 700],
        [Block.line "f" "x" 30]] : List (List Block)).length - 1 →
      totalBlocks (checkPageOverflowStep "special-elite"
          ⟨[[Block.line "f" "a" 600, Block.line "f" "b" 700],
            [Block.line "f" "x" 30]], 0, none⟩).pages =
        totalBlocks [[Block.line "f" "a" 600, Block.line "f" "b" 700],
          [Block.line "f" "x" 30]]) ∧
    ((0 : ℕ) ≠ ([[Block.line "f" "a" 600, Block.line "f" "b" 700],
        [Block.line "f" "x" 30]] : List (List Block)).length - 1 →
      totalBlocks (checkPageOverflowStep "special-elite"
          ⟨[[Block.line "f" "a" 600, Block.line "f" "b" 700],
            [Block.line "f" "x" 30]], 0, none⟩).pages +
        ((([[Block.line "f" "a" 600, Block.line "f" "b" 700],
           [Block.line "f" "x" 30]] : List (List Block))[(0 : ℕ) + 1]?).getD []).length =
      totalBlocks [[Block.line "f" "a" 600, Block.line "f" "b" 700],
          [Block.line "f" "x" 30]] +
        (removeFirstEmptyLine
          ((([[Block.line "f" "a" 600, Block.line "f" "b" 700],
             [Block.line "f" "x" 30]] : List (List Block))[(0 : ℕ) + 1]?).getD [])).length)) :=
  ⟨rfl, by decide, by decide,
    overflow_block_accounting "special-elite"
      ⟨[[Block.line "f" "a" 600, Block.line "f" "b" 700],
        [Block.line "f" "x" 30]], 0, none⟩
      [Block.line "f" "a" 600, Block.line "f" "b" 700] rfl (by decide) (by decide)⟩

/-! ## Plain-text export: `getEditorText` (main.js lines 544-558)

For every page, the text content of every `.line` element (image lines
are not selected) is appended followed by `'\n'`; between consecutive
pages the literal marker `'\n--- Seite ' + (pageIndex + 2) + ' ---\n\n'`
is inserted; the result is `trimEnd()`ed. -/

/-- JS `trimEnd` on the character list. -/
def trimEndChars (cs : List Char) : List Char :=
  (cs.reverse.dropWhile isJsSpace).reverse

/-- JS `trimEnd` on strings. -/
def jsTrimEnd (s : String) : String :=
  String.mk (trimEndChars s.data)

/-- The `page.querySelectorAll('.line')` text contents, in order. -/
def lineTexts (p : List Block) : List String :=
  p.filterMap fun b =>
    match b with
    | .line _ c _ => some c
    | .image _ _ _ _ => none

/-- The page-break marker inserted after page `pageIndex` (0-based):
`'\n--- Seite ' + (pageIndex + 2) + ' ---\n\n'`. -/
def pageBreakMarker (pageIndex : ℕ) : String :=
  "\n--- Seite " ++ toString (pageIndex + 2) ++ " ---\n\n"

/-- The `lines.forEach(line => { text += line.textContent + '\n' })`
inner loop for one page. -/
def pageText (p : List Block) : String :=
  (lineTexts p).foldl (fun acc t => acc ++ t ++ "\n") ""

/-- The page loop of `getEditorText`: page text, then the marker when the
page is not the last one. -/
def getEditorTextAux : ℕ → List (List Block) → String
  | _, [] => ""
  | i, p :: rest =>
    match rest with
    | [] => pageText p
    | _ :: _ => pageText p ++ pageBreakMarker i ++ getEditorTextAux (i + 1) rest

/-- The function `getEditorText()` (main.js lines 544-558). -/
def getEditorText (pages : List (List Block)) : String :=
  jsTrimEnd (getEditorTextAux 0 pages)

/-- Modelled from the spec's words for the refinement comparison: the
concatenation of every page's `TextLine` contents in order (image blocks
skipped), one `'\n'` per line, with the literal separator
`"\n--- Seite <n> ---\n\n"` (n = destination page's 1-based number)
between consecutive pages, and trailing whitespace trimmed. -/
def specPlainTextExport (pages : List (List Block)) : List Char :=
  trimEndChars
    (((pages.enum).map fun pr =>
      (((lineTexts pr.2).map fun t => t.data ++ ['\n']).flatten) ++
        (if pr.1 + 1 < pages.length then
          ("\n--- Seite " ++ toString (pr.1 + 2) ++ " ---\n\n").data
        else [])).flatten)

theorem string_data_append (s t : String) : (s ++ t).data = s.data ++ t.data := by
  cases s; cases t; rfl

theorem pageText_data (p : List Block) :
    (pageText p).data = ((lineTexts p).map fun t => t.data ++ ['\n']).flatten := by
  rw [pageText]
  have h : ∀ (l : List String) (acc : String),
      (l.foldl (fun a t => a ++ t ++ "\n") acc).data =
        acc.data ++ (l.map fun t => t.data ++ ['\n']).flatten := by
    intro l
    induction l with
    | nil => intro acc; simp
    | cons t ts ih =>
      intro acc
      rw [List.foldl_cons, ih, string_data_append, string_data_append]
      simp
  rw [h]
  rfl

theorem getEditorTextAux_data (ps : List (List Block)) :
    ∀ i, (getEditorTextAux i ps).data =
      ((List.enumFrom i ps).map fun pr =>
        (((lineTexts pr.2).map fun t => t.data ++ ['\n']).flatten) ++
          (if pr.1 + 1 < i + ps.length then (pageBreakMarker pr.1).data else [])).flatten := by
  induction ps with
  | nil => intro i; simp [getEditorTextAux]
  | cons p rest ih =>
    intro i
    cases rest with
    | nil =>
      rw [getEditorTextAux]
      simp [pageText_data]
    | cons q rest' =>
      rw [getEditorTextAux, string_data_append, string_data_append, ih (i + 1)]
      simp only [List.enumFrom, List.map_cons, List.flatten_cons, List.length_cons]
      have harith : i + 1 + (rest'.length + 1) = i + (rest'.length + 1 + 1) := by omega
      have harith2 : ∀ n : ℕ,
          (n < i + 1 + (rest'.length + 1)) = (n < i + (rest'.length + 1 + 1)) :=
        fun n => by rw [harith]
      simp only [harith2]
      rw [if_pos (by omega : i + 1 < i + (rest'.length + 1 + 1)), pageText_data]

/-- C6 (counterexample): the two-page document with pages `["A"]` and
`["B"]` does not export with the claimed literal `"--- Page 2 ---"`
separator (the code writes `"--- Seite 2 ---"`). -/
theorem plain_text_export_cex :
    getEditorText [[Block.line "f" "A" 30], [Block.line "f" "B" 30]] ≠
      "A\n\n--- Page 2 ---\n\nB" := by decide

/-- C6 (amended): the plain-text export equals the concatenation of every
page's text-line contents in order (image blocks skipped), one line per
`'\n'`, with the literal separator `"\n--- Seite <n> ---\n\n"` (n = the
destination page's 1-based number) between consecutive pages, and
trailing whitespace trimmed; in particular the two-page document with
page 1 = `["A"]` and page 2 = `["B"]` exports to
`"A\n\n--- Seite 2 ---\n\nB"`. -/
theorem plain_text_export (pages : List (List Block)) :
    (getEditorText pages).data = specPlainTextExport pages ∧
    getEditorText [[Block.line "f" "A" 30], [Block.line "f" "B" 30]] =
      "A\n\n--- Seite 2 ---\n\nB" := by
  constructor
  · rw [getEditorText, specPlainTextExport]
    have hdata : (jsTrimEnd (getEditorTextAux 0 pages)).data =
        trimEndChars (getEditorTextAux 0 pages).data := rfl
    rw [hdata, getEditorTextAux_data pages 0]
    have henum : pages.enum = List.enumFrom 0 pages := rfl
    rw [henum]
    simp only [Nat.zero_add, pageBreakMarker]
  · decide

/-! ## Canvas renderer: `createDocumentCanvas` (main.js lines 698-838)

The measure pass (pass 1) resolves each line's font, wraps its text with
the canvas measurement function against `maxWidth = 800 - 60 * 2 = 680`,
and accumulates `lineHeight = 32` per wrapped line (an empty line still
reserves one), and for images a scaled height (aspect-preserving, clamped
to `maxWidth - 40` by `300`) plus a 24px margin.  Page height is
`marginTop + content + marginBottom = 80 + content + 80`.  The draw pass
consumes two random sources — the uniformly chosen frame style
(`drawCornerOrnaments`, main.js lines 1107-1111, one of five styles) and
the per-pixel grain (`addPaperTexture`, lines 840-852); the vignette
(`addAgingEffect`, lines 1113-1124) is deterministic.  Canvas metrics are
embedded as rationals (the JS numbers); division by zero cannot occur for
real images (`naturalWidth || width || 200` never yields 0). -/

/-- An entry of `fontMap` (main.js lines 685-696). -/
structure FontInfo : Type where
  family : String
  size : ℕ
  deriving DecidableEq, Repr

/-- The table `fontMap` (main.js lines 685-696). -/
def fontMap : String → Option FontInfo
  | "special-elite" => some ⟨"Special Elite", 18⟩
  | "american-typewriter" => some ⟨"American Typewriter", 17⟩
  | "adler" => some ⟨"Adler", 22⟩
  | "remington" => some ⟨"Remington", 20⟩
  | "1942" => some ⟨"1942", 20⟩
  | "berlin-email" => some ⟨"Berlin Email", 18⟩
  | "cutmeout" => some ⟨"CutMeOut", 20⟩
  | "facets" => some ⟨"Facets", 20⟩
  | "hofstaetten" => some ⟨"Hofstaetten", 18⟩
  | "zent" => some ⟨"Zent", 20⟩
  | _ => none

/-- The fallback `child.dataset.font || 'special-elite'` followed by
`fontMap[fontKey] || fontMap['special-elite']` (main.js lines 753-754). -/
def resolveFont (font : String) : FontInfo :=
  let fontKey := if font = "" then "special-elite" else font
  (fontMap fontKey).getD ⟨"Special Elite", 18⟩

/-- One entry of `renderData` (pass 1 output). -/
inductive RenderItem : Type
  | empty
  | text (t : List Char) (font : FontInfo)
  | image (w h : ℚ) (filt : Bool)
  deriving DecidableEq, Repr

/-- Pass 1 of `createDocumentCanvas` (main.js lines 716-779): the
`renderData` sequence and the total content height.  `measure font s`
embeds `tempCtx.measureText(s).width` after `tempCtx.font` was set from
`font`. -/
def measurePass (measure : FontInfo → List Char → ℚ) (children : List Block) :
    List RenderItem × ℚ :=
  children.foldl
    (fun acc child =>
      match child with
      | Block.image natW natH filt _ =>
        let scale := min (min ((680 - 40) / natW) (300 / natH)) 1
        let imgW := natW * scale
        let imgH := natH * scale
        (acc.1 ++ [RenderItem.image imgW imgH filt], acc.2 + imgH + 24)
      | Block.line font content _ =>
        let fontInfo := resolveFont font
        if trimIsEmpty content then
          (acc.1 ++ [RenderItem.empty], acc.2 + 32)
        else
          let wrappedLines := wrapText (measure fontInfo) content.data (680 : ℚ)
          (acc.1 ++ wrappedLines.map fun t => RenderItem.text t fontInfo,
            acc.2 + 32 * wrappedLines.length +
              (if wrappedLines.length = 0 then 32 else 0)))
    ([], 0)

/-- The random draws consumed by pass 2: the frame style index
(`Math.floor(Math.random() * frameStyles.length)`) and the grain noise
stream (`(Math.random() - 0.5) * 8` per pixel, scaled here to an abstract
integer stream). -/
structure RandomSource : Type where
  frame : Fin 5
  grain : ℕ → ℤ

/-- The observable output of `createDocumentCanvas`: the laid-out items
and page height from pass 1, plus the decorative draws of pass 2, which
are the only consumers of the random source. -/
structure CanvasOutput : Type where
  items : List RenderItem
  pageHeight : ℚ
  frameStyle : Fin 5
  grain : ℕ → ℤ

/-- The function `createDocumentCanvas` (main.js lines 698-838). -/
def createDocumentCanvas (measure : FontInfo → List Char → ℚ)
    (children : List Block) (rnd : RandomSource) : CanvasOutput :=
  let r := measurePass measure children
  { items := r.1,
    pageHeight := 80 + r.2 + 80,
    frameStyle := rnd.frame,
    grain := rnd.grain }

/-- C1: `wrapText` depends on the measurement function only through its
input-output behaviour (two extensionally equal measurement functions
give identical wrapped lines), and the randomized drawing elements never
influence the computed render items or the page height. -/
theorem wrap_render_deterministic
    (μ1 μ2 : List Char → ℚ) (hμ : ∀ s, μ1 s = μ2 s)
    (text : List Char) (maxWidth : ℚ)
    (m1 m2 : FontInfo → List Char → ℚ) (hm : ∀ f s, m1 f s = m2 f s)
    (children : List Block) (r1 r2 : RandomSource) :
    wrapText μ1 text maxWidth = wrapText μ2 text maxWidth ∧
    (createDocumentCanvas m1 children r1).items =
      (createDocumentCanvas m2 children r2).items ∧
    (createDocumentCanvas m1 children r1).pageHeight =
      (createDocumentCanvas m2 children r2).pageHeight := by
  have hμ' : μ1 = μ2 := funext hμ
  have hm' : m1 = m2 := funext fun f => funext fun s => hm f s
  subst hμ'
  subst hm'
  exact ⟨rfl, rfl, rfl⟩

/-- Witness for C1: two syntactically different but extensionally equal
measurement functions, and two different random sources. -/
theorem wrap_render_deterministic_witness :
    (∀ s : List Char, ((s.length : ℚ)) = (((s ++ []).length : ℕ) : ℚ)) ∧
    (∀ (f : FontInfo) (s : List Char),
      ((f.size : ℚ)) * s.length = (s.length : ℚ) * f.size) ∧
    (wrapText (fun s : List Char => (s.length : ℚ)) "hello world".data 680 =
      wrapText (fun s : List Char => (((s ++ []).length : ℕ) : ℚ)) "hello world".data 680 ∧
    (createDocumentCanvas (fun f s => (f.size : ℚ) * s.length)
        [Block.line "special-elite" "hello world" 30] ⟨0, fun _ => 0⟩).items =
      (createDocumentCanvas (fun f s => (s.length : ℚ) * f.size)
        [Block.line "special-elite" "hello world" 30] ⟨3, fun _ => 1⟩).items ∧
    (createDocumentCanvas (fun f s => (f.size : ℚ) * s.length)
        [Block.line "special-elite" "hello world" 30] ⟨0, fun _ => 0⟩).pageHeight =
      (createDocumentCanvas (fun f s => (s.length : ℚ) * f.size)
        [Block.line "special-elite" "hello world" 30] ⟨3, fun _ => 1⟩).pageHeight) := by
  refine ⟨fun s => by simp, fun f s => by ring, ?_⟩
  exact wrap_render_deterministic
    (fun s : List Char => (s.length : ℚ))
    (fun s : List Char => (((s ++ []).length : ℕ) : ℚ))
    (fun s => by simp)
    "hello world".data 680
    (fun f s => (f.size : ℚ) * s.length)
    (fun f s => (s.length : ℚ) * f.size)
    (fun f s => by ring)
    [Block.line "special-elite" "hello world" 30] ⟨0, fun _ => 0⟩ ⟨3, fun _ => 1⟩

/-! ## Export pipeline: `savePNG` (main.js lines 597-682)

The pipeline is embedded as a trace of observable effects.  The Tauri
collaborators are inputs: for each dialog, `none` models the call
throwing (caught by the surrounding `try`), `some none` the user
cancelling (the promise resolves `null`, taking the silent `if` path),
`some (some path)` a chosen path; `writeOk path = false` models
`writeFile(path, …)` throwing.  A prompt effect is recorded only when the
dialog call itself does not throw. -/

/-- Observable effects of the export pipeline, in order. -/
inductive ExportEffect : Type
  | render (pageIdx : ℕ)
  | savePrompt (defaultName : String)
  | dirPrompt
  | write (path : String)
  | download (filename : String)
  | sleep (ms : ℕ)
  deriving DecidableEq, Repr

/-- Whether an effect is a browser-download fallback. -/
def ExportEffect.isDownload : ExportEffect → Bool
  | .download _ => true
  | _ => false

/-- The file-system collaborator's behaviour for one export run. -/
structure FileSystemCollab : Type where
  saveDialog : Option (Option String)
  dirDialog : Option (Option String)
  writeOk : String → Bool

/-- The text content of a block element: a line's text; for an image
line, the newspaper-filter button's emoji (its only text). -/
def blockTextContent : Block → String
  | .line _ c _ => c
  | .image _ _ _ _ => "📰"

/-- The `editor.textContent` for a page. -/
def pageTextContent (p : List Block) : String :=
  String.join (p.map blockTextContent)

/-- Whether a block is an `.image-line`. -/
def Block.isImage : Block → Bool
  | .image _ _ _ _ => true
  | .line _ _ _ => false

/-- The filter of `savePNG` (main.js lines 599-604): pages whose trimmed
text content is non-empty or which hold at least one image line. -/
def pageQualifies (p : List Block) : Bool :=
  !trimIsEmpty (pageTextContent p) || p.any Block.isImage

/-- The list `pagesWithContent`, with each page's original index. -/
def qualifyingPages (pages : List (List Block)) : List (ℕ × List Block) :=
  (pages.enum).filter fun pr => pageQualifies pr.2

/-- The browser-download fallback loop (main.js lines 654-677): re-render
each qualifying page, download it (`dokument.png` when a single page
qualifies, else `dokument_seite_<i+1>.png`), and sleep 500ms between
successive downloads. -/
def fallbackDownloads (n : ℕ) : ℕ → List (ℕ × List Block) → List ExportEffect
  | _, [] => []
  | i, pr :: rest =>
    ExportEffect.render pr.1 ::
    ExportEffect.download
      (if n = 1 then "dokument.png"
        else "dokument_seite_" ++ toString (i + 1) ++ ".png") ::
    ((if i + 1 < n then [ExportEffect.sleep 500] else []) ++
      fallbackDownloads n (i + 1) rest)

/-- The whole fallback pass over `pagesWithContent`. -/
def fallbackDownloadTrace (qual : List (ℕ × List Block)) : List ExportEffect :=
  fallbackDownloads qual.length 0 qual

/-- The multi-page write loop (main.js lines 634-646): render and write
`<folder>/dokument_seite_<i+1>.png` per qualifying page, stopping at the
first write that throws.  Returns the effects and whether the loop
completed. -/
def multiPageWrites (writeOk : String → Bool) (folderPath : String) :
    ℕ → List (ℕ × List Block) → List ExportEffect × Bool
  | _, [] => ([], true)
  | i, pr :: rest =>
    let filePath := folderPath ++ "/" ++
      ("dokument_seite_" ++ toString (i + 1) ++ ".png")
    if writeOk filePath then
      let r := multiPageWrites writeOk folderPath (i + 1) rest
      (ExportEffect.render pr.1 :: ExportEffect.write filePath :: r.1, r.2)
    else ([ExportEffect.render pr.1], false)

/-- The function `savePNG` (main.js lines 597-682) as an effect trace. -/
def savePNG (fs : FileSystemCollab) (pages : List (List Block)) :
    List ExportEffect :=
  match qualifyingPages pages with
  | [] => []
  | [pr] =>
    -- single qualifying page: render, then save dialog
    match fs.saveDialog with
    | none => ExportEffect.render pr.1 :: fallbackDownloadTrace (qualifyingPages pages)
    | some none => [ExportEffect.render pr.1, ExportEffect.savePrompt "dokument.png"]
    | some (some filePath) =>
      if fs.writeOk filePath then
        [ExportEffect.render pr.1, ExportEffect.savePrompt "dokument.png",
         ExportEffect.write filePath]
      else
        ExportEffect.render pr.1 :: ExportEffect.savePrompt "dokument.png" ::
          fallbackDownloadTrace (qualifyingPages pages)
  | pr :: pr2 :: rest =>
    match fs.dirDialog with
    | none => fallbackDownloadTrace (qualifyingPages pages)
    | some none => [ExportEffect.dirPrompt]
    | some (some folderPath) =>
      let r := multiPageWrites fs.writeOk folderPath 0 (qualifyingPages pages)
      if r.2 then ExportEffect.dirPrompt :: r.1
      else ExportEffect.dirPrompt :: (r.1 ++ fallbackDownloadTrace (qualifyingPages pages))

theorem multiPageWrites_all_ok (folderPath : String)
    (qual : List (ℕ × List Block)) :
    ∀ i, multiPageWrites (fun _ => true) folderPath i qual =
      (((List.enumFrom i qual).map fun kr =>
        [ExportEffect.render kr.2.1,
         ExportEffect.write (folderPath ++ "/" ++
           ("dokument_seite_" ++ toString (kr.1 + 1) ++ ".png"))]).flatten, true) := by
  induction qual with
  | nil => intro i; simp [multiPageWrites, List.enumFrom]
  | cons pr rest ih =>
    intro i
    rw [multiPageWrites]
    simp [ih (i + 1), List.enumFrom]

/-- C7: the PNG export qualifies exactly the pages with non-empty content
(non-whitespace text or at least one image); on a successful collaborator,
zero qualifying pages produce no effects, exactly one qualifying page goes
through the single-file path (one render, one save prompt, one write to
the chosen path), and two or more qualifying pages produce one directory
prompt and one numbered write per qualifying page in page order. -/
theorem export_page_selection (pages : List (List Block)) (p f : String) :
    (qualifyingPages pages = [] →
      savePNG ⟨some (some p), some (some f), fun _ => true⟩ pages = []) ∧
    (∀ j q, qualifyingPages pages = [(j, q)] →
      savePNG ⟨some (some p), some (some f), fun _ => true⟩ pages =
        [ExportEffect.render j, ExportEffect.savePrompt "dokument.png",
         ExportEffect.write p]) ∧
    (2 ≤ (qualifyingPages pages).length →
      savePNG ⟨some (some p), some (some f), fun _ => true⟩ pages =
        ExportEffect.dirPrompt ::
          (((qualifyingPages pages).enum).map fun kr =>
            [ExportEffect.render kr.2.1,
             ExportEffect.write (f ++ "/" ++
               ("dokument_seite_" ++ toString (kr.1 + 1) ++ ".png"))]).flatten) := by
  unfold savePNG
  cases hq : qualifyingPages pages with
  | nil =>
    refine ⟨fun _ => rfl, fun j q h => ?_, fun h2 => ?_⟩
    · exact absurd h (by simp)
    · exact absurd h2 (by simp)
  | cons pr tail =>
    cases tail with
    | nil =>
      refine ⟨fun h => ?_, fun j q h => ?_, fun h2 => ?_⟩
      · exact absurd h (by simp)
      · have hpr : pr = (j, q) := by simpa using h
        subst hpr
        simp
      · exact absurd h2 (by simp)
    | cons pr2 rest =>
      refine ⟨fun h => ?_, fun j q h => ?_, fun h2 => ?_⟩
      · exact absurd h (by simp)
      · exact absurd h (by simp)
      · dsimp only
        rw [multiPageWrites_all_ok f (pr :: pr2 :: rest) 0]
        simp [List.enum]

/-- Witness for C7: a three-page document where only page 2 has content
exports exactly one PNG through the single-page path. -/
theorem export_page_selection_witness :
    qualifyingPages [[Block.line "f" "" 30], [Block.line "f" "Hi" 30],
        [Block.line "f" " " 30]] = [(1, [Block.line "f" "Hi" 30])] ∧
    savePNG ⟨some (some "out.png"), some (some "d"), fun _ => true⟩
        [[Block.line "f" "" 30], [Block.line "f" "Hi" 30],
         [Block.line "f" " " 30]] =
      [ExportEffect.render 1, ExportEffect.savePrompt "dokument.png",
       ExportEffect.write "out.png"] :=
  ⟨by decide,
    (export_page_selection [[Block.line "f" "" 30], [Block.line "f" "Hi" 30],
        [Block.line "f" " " 30]] "out.png" "d").2.1
      1 [Block.line "f" "Hi" 30] (by decide)⟩

/-- C8 (counterexample): a cancelled save dialog is a silent no-op, not a
fallback — the trace contains no download effect. -/
theorem export_failure_fallback_cex :
    savePNG ⟨some none, some none, fun _ => true⟩ [[Block.line "f" "A" 30]] =
      [ExportEffect.render 0, ExportEffect.savePrompt "dokument.png"] ∧
    ((savePNG ⟨some none, some none, fun _ => true⟩
        [[Block.line "f" "A" 30]]).all fun e => !e.isDownload) = true :=
  ⟨by decide, by decide⟩

theorem fallbackDownloads_count_sleep (n : ℕ)
    (qual : List (ℕ × List Block)) :
    ∀ i, i + qual.length = n → qual ≠ [] →
      (fallbackDownloads n i qual).count (ExportEffect.sleep 500) + 1 =
        qual.length := by
  induction qual with
  | nil => intro i h hne; exact absurd rfl hne
  | cons pr rest ih =>
    intro i h hne
    rw [fallbackDownloads]
    cases rest with
    | nil =>
      have hlt : ¬(i + 1 < n) := by simp at h; omega
      rw [if_neg hlt]
      simp [fallbackDownloads, List.count_cons]
    | cons pr2 rest' =>
      have hlt : i + 1 < n := by simp at h; omega
      rw [if_pos hlt]
      have hih := ih (i + 1) (by simp at h ⊢; omega) (by simp)
      simp only [List.count_cons, List.nil_append, List.cons_append] at hih ⊢
      simp [List.count_cons] at hih ⊢
      omega

/-- C8 (amended): on a *thrown* collaborator failure — the save or
directory dialog throwing, or a write throwing — the pipeline falls back
to a client-side download of each qualifying page (re-rendering it), with
one fixed 500ms delay inserted between successive downloads; a
*cancelled* dialog, by contrast, ends the export silently with no write
and no fallback. -/
theorem export_failure_fallback (pages : List (List Block)) (p f : String)
    (w : String → Bool) (sd dd : Option (Option String)) :
    (∀ j q, qualifyingPages pages = [(j, q)] →
      savePNG ⟨none, dd, w⟩ pages =
        ExportEffect.render j :: fallbackDownloadTrace (qualifyingPages pages)) ∧
    (∀ j q, qualifyingPages pages = [(j, q)] → w p = false →
      savePNG ⟨some (some p), dd, w⟩ pages =
        ExportEffect.render j :: ExportEffect.savePrompt "dokument.png" ::
          fallbackDownloadTrace (qualifyingPages pages)) ∧
    (∀ j q, qualifyingPages pages = [(j, q)] →
      savePNG ⟨some none, dd, w⟩ pages =
        [ExportEffect.render j, ExportEffect.savePrompt "dokument.png"]) ∧
    (2 ≤ (qualifyingPages pages).length →
      savePNG ⟨sd, none, w⟩ pages =
        fallbackDownloadTrace (qualifyingPages pages)) ∧
    (2 ≤ (qualifyingPages pages).length →
      savePNG ⟨sd, some none, w⟩ pages = [ExportEffect.dirPrompt]) ∧
    (∀ j q tail, qualifyingPages pages = (j, q) :: tail → tail ≠ [] →
      (∀ path, w path = false) →
      savePNG ⟨sd, some (some f), w⟩ pages =
        ExportEffect.dirPrompt :: ExportEffect.render j ::
          fallbackDownloadTrace (qualifyingPages pages)) ∧
    (qualifyingPages pages ≠ [] →
      (fallbackDownloadTrace (qualifyingPages pages)).count
          (ExportEffect.sleep 500) + 1 =
        (qualifyingPages pages).length) := by
  have hcount : qualifyingPages pages ≠ [] →
      (fallbackDownloadTrace (qualifyingPages pages)).count
          (ExportEffect.sleep 500) + 1 =
        (qualifyingPages pages).length := fun hne =>
    fallbackDownloads_count_sleep (qualifyingPages pages).length
      (qualifyingPages pages) 0 (by omega) hne
  unfold savePNG
  cases hq : qualifyingPages pages with
  | nil =>
    rw [hq] at hcount
    refine ⟨fun j q h => absurd h (by simp), fun j q h => absurd h (by simp),
      fun j q h => absurd h (by simp), fun h2 => absurd h2 (by simp),
      fun h2 => absurd h2 (by simp), fun j q tail h => absurd h (by simp),
      hcount⟩
  | cons pr tail =>
    cases tail with
    | nil =>
      rw [hq] at hcount
      refine ⟨fun j q h => ?_, fun j q h hw => ?_, fun j q h => ?_,
        fun h2 => absurd h2 (by simp), fun h2 => absurd h2 (by simp),
        fun j q tail h htail => ?_, hcount⟩
      · have hpr : pr = (j, q) := by simpa using h
        subst hpr
        rfl
      · have hpr : pr = (j, q) := by simpa using h
        subst hpr
        dsimp only
        rw [if_neg (by simp [hw])]
      · have hpr : pr = (j, q) := by simpa using h
        subst hpr
        rfl
      · have : tail = [] := by
          have := h
          simp at this
          exact this.2.symm ▸ rfl
        exact absurd this htail
    | cons pr2 rest =>
      rw [hq] at hcount
      refine ⟨fun j q h => absurd h (by simp), fun j q h => absurd h (by simp),
        fun j q h => absurd h (by simp), fun _ => rfl, fun _ => rfl,
        fun j q tail h htail hw => ?_, hcount⟩
      · have hpr : pr = (j, q) := by
          have := congrArg (fun l => l.headD (0, [])) h
          simpa using this
        subst hpr
        dsimp only
        rw [multiPageWrites]
        simp [hw]

/-- Witness for C8 (amended): a thrown directory dialog on a two-page
document falls back to two downloads with one delay between them. -/
theorem export_failure_fallback_witness :
    2 ≤ (qualifyingPages [[Block.line "f" "A" 30],
        [Block.line "f" "B" 30]]).length ∧
    savePNG ⟨some (some "p"), none, fun _ => true⟩
        [[Block.line "f" "A" 30], [Block.line "f" "B" 30]] =
      fallbackDownloadTrace (qualifyingPages [[Block.line "f" "A" 30],
        [Block.line "f" "B" 30]]) ∧
    savePNG ⟨some (some "p"), none, fun _ => true⟩
        [[Block.line "f" "A" 30], [Block.line "f" "B" 30]] =
      [ExportEffect.render 0, ExportEffect.download "dokument_seite_1.png",
       ExportEffect.sleep 500,
       ExportEffect.render 1, ExportEffect.download "dokument_seite_2.png"] :=
  ⟨by decide,
    (export_failure_fallback [[Block.line "f" "A" 30], [Block.line "f" "B" 30]]
      "p" "f" (fun _ => true) (some (some "p")) (some none)).2.2.2.1 (by decide),
    by decide⟩

end Typewriter
